import Mathlib

/-!
Verification development for a pre-push / pre-commit DLP (data loss
prevention) gate written in Go.  The repository contains several
near-duplicate entry points; each is embedded below as a pure Lean model,
parameterised over the external collaborators (the git repository view and
the DLP content inspector), which are passed in as functions so that the
orchestration logic itself is closed and executable.

Models (one namespace per Go entry point):

* HookScan       - main.go, first document: scan files changed in the last
                   commit at the working tree, abort the push on the first
                   finding.
* HttpServerScan - main.go, second document: the HTTP middleware variant;
                   only its inspectContent function matters here.
* RangeScan      - src/unnamed/part_000: commit-range scan with a flagged
                   set and a final-state re-scan at HEAD.
* PerFilePush    - src/unnamed/part_001: scans each changed file and runs
                   git push per clean file, skipping the push for files
                   with findings.
* PerCommitScan  - src/unnamed/part_002: commit-range scan that aborts on
                   the first commit containing a finding.
* ProxyScan      - src/unnamed/part_003, first document: last-commit scan
                   that sends a proxy POST with a DLP-scanned header when a
                   finding is present, then aborts.

Two facts of Go semantics are reflected in the models and documented where
used: os.Exit terminates the process immediately without running deferred
calls, and a deferred call does run on a normal function return.
-/

/-- One DLP finding: an information type label and a likelihood level.
Mirrors the fields of the inspection response actually consumed by the
programs (only the count of findings and the label are ever used). -/
structure Finding where
  infoType : String
  likelihood : Nat
deriving DecidableEq

/-- Observable events of one invocation, in program order: reading a file
at a revision, reading a working-tree file, an inspection request carrying
the submitted text, running git push, sending the proxy POST with its
custom header, and printing the abort report. -/
inductive Ev where
  | readAt (rev : String) (path : String)
  | readWT (path : String)
  | inspect (text : String)
  | push
  | proxyPost (url : String) (headerName : String) (headerValue : String)
  | abortReport (msg : String)
deriving DecidableEq

/-- Outcome of one process invocation: the exit code, whether the
GIT_HTTP_EXTRAHEADER marker is still set at the instant the process
terminates, and the trace of observable events.  On an os.Exit path a
pending deferred os.Unsetenv does not run (Go os.Exit contract), so envSet
stays true there; on a normal return from main the deferred call runs. -/
structure RunOut where
  exit : Nat
  envSet : Bool
  trace : List Ev
deriving DecidableEq

/-- Read-only view over the git repository, mirroring the commands the
programs issue: git diff-tree (files changed in a commit), git show
(content of a file at a revision), and a plain working-tree file read. -/
structure RepoView where
  filesIn : String → Except String (List String)
  showAt : String → String → Except String String
  readHead : String → Except String String

/-- A file entry of a last-commit scan that does not abort the run: either
the empty string (skipped by the loop) or a file whose content reads
successfully and inspects to zero findings. -/
def cleanEntry (readF : String → Except String String)
    (I : String → Except String (List Finding)) (f : String) : Prop :=
  f = "" ∨ ∃ d fs, readF f = .ok d ∧ I d = .ok fs ∧ fs.length = 0

/-- Trace produced by a run over files that are all clean: one inspection
event per non-empty file, carrying the content that was read. -/
def cleanTrace (readF : String → Except String String) : List String → List Ev
  | [] => []
  | f :: rest =>
    if f = "" then cleanTrace readF rest
    else
      match readF f with
      | .ok d => Ev.inspect d :: cleanTrace readF rest
      | .error _ => cleanTrace readF rest

namespace HookScan

/-- ScanFile of main.go (first document): read the file at the working
tree, inspect its content, return whether any findings were present.
The returned event list records the inspection request when it is made. -/
def ScanFile (readF : String → Except String String)
    (I : String → Except String (List Finding)) (f : String) :
    Except String Bool × List Ev :=
  match readF f with
  | .error e => (.error ("could not read file: " ++ e), [])
  | .ok d =>
    match I d with
    | .error e => (.error ("failed to inspect content: " ++ e), [Ev.inspect d])
    | .ok fs => (.ok (decide (0 < fs.length)), [Ev.inspect d])

/-- The file loop of main (main.go, first document).  The environment
marker was set before the loop with a deferred unset: every os.Exit(1)
path leaves it set, the normal completion path clears it. -/
def loopFiles (readF : String → Except String String)
    (I : String → Except String (List Finding)) : List String → RunOut
  | [] => ⟨0, false, []⟩
  | f :: rest =>
    if f = "" then loopFiles readF I rest
    else
      match ScanFile readF I f with
      | (.error _, t) => ⟨1, true, t⟩
      | (.ok true, t) => ⟨1, true, t⟩
      | (.ok false, t) =>
        ⟨(loopFiles readF I rest).exit, (loopFiles readF I rest).envSet,
          t ++ (loopFiles readF I rest).trace⟩

/-- main of main.go (first document): set GIT_HTTP_EXTRAHEADER, get the
changed files, scan them in order, exit 1 on any error or finding and 0
otherwise.  filesR is the result of GetChangedFiles. -/
def mainRun (filesR : Except String (List String))
    (readF : String → Except String String)
    (I : String → Except String (List Finding)) : RunOut :=
  match filesR with
  | .error _ => ⟨1, true, []⟩
  | .ok files => loopFiles readF I files

end HookScan

namespace HttpServerScan

/-- Text placed in the InspectContentRequest actually sent by
inspectContent of main.go (second document): the live code builds
simpleRequest with the literal value Test data; the request built from the
content parameter is commented out, so the payload is ignored. -/
def submittedText (content : String) : String :=
  let _ := content
  "Test data"

/-- inspectContent of main.go (second document): sends the submitted text
to the DLP service and returns its findings. -/
def inspectContent (I : String → Except String (List Finding))
    (content : String) : Except String (List Finding) :=
  I (submittedText content)

end HttpServerScan

namespace PerFilePush

/-- ScanFile of src/unnamed/part_001: read the file, inspect it; when no
findings are present set the header, run git push and clear the header via
a deferred call (the defer runs on every return from ScanFile); when
findings are present skip the push and return nil.  pushR is the result of
RunGitPush.  The event list records the inspection and any push attempt. -/
def ScanFile (readF : String → Except String String)
    (I : String → Except String (List Finding))
    (pushR : Except String Unit) (f : String) :
    Except String Unit × List Ev :=
  match readF f with
  | .error e => (.error ("could not read file: " ++ e), [])
  | .ok d =>
    match I d with
    | .error e => (.error ("failed to inspect content: " ++ e), [Ev.inspect d])
    | .ok fs =>
      if 0 < fs.length then (.ok (), [Ev.inspect d])
      else
        match pushR with
        | .ok _ => (.ok (), [Ev.inspect d, Ev.push])
        | .error e => (.error ("git push failed: " ++ e), [Ev.inspect d, Ev.push])

/-- The file loop of main (part_001): on a ScanFile error exit 1, else
continue with the next file; after the loop exit 0.  This variant never
sets the marker at main level, and ScanFile always clears it before
returning, so envSet is false at every termination point. -/
def loopFiles (readF : String → Except String String)
    (I : String → Except String (List Finding))
    (pushR : Except String Unit) : List String → RunOut
  | [] => ⟨0, false, []⟩
  | f :: rest =>
    if f = "" then loopFiles readF I pushR rest
    else
      match ScanFile readF I pushR f with
      | (.error _, t) => ⟨1, false, t⟩
      | (.ok _, t) =>
        ⟨(loopFiles readF I pushR rest).exit, (loopFiles readF I pushR rest).envSet,
          t ++ (loopFiles readF I pushR rest).trace⟩

/-- main of part_001: get the changed files and run the loop. -/
def mainRun (filesR : Except String (List String))
    (readF : String → Except String String)
    (I : String → Except String (List Finding))
    (pushR : Except String Unit) : RunOut :=
  match filesR with
  | .error _ => ⟨1, false, []⟩
  | .ok files => loopFiles readF I pushR files

end PerFilePush

/-- Error type of the commit enumeration step.  part_000 has a dedicated
code path returning a dedicated no-upstream error before running
git rev-list; any rev-list failure is wrapped generically.  part_002 has
no upstream check at all, so it can only ever produce the generic
constructor. -/
inductive UpstreamErr where
  | noUpstream
  | revListFailed (msg : String)
deriving DecidableEq

namespace RangeScan

/-- GetUnpushedCommits of src/unnamed/part_000: first check whether an
upstream is configured (git rev-parse of the upstream ref) and fail with
the dedicated no-upstream error when it is not; only then run git
rev-list and wrap any failure generically.  upstreamSet abstracts the
upstream check, rl the rev-list result. -/
def GetUnpushedCommits (upstreamSet : Bool)
    (rl : Except String (List String)) : Except UpstreamErr (List String) :=
  if upstreamSet then
    match rl with
    | .error e => .error (.revListFailed ("failed to get unpushed commits: " ++ e))
    | .ok commits => .ok commits
  else
    .error .noUpstream

/-- Insertion into the flagged set, mirroring flaggedFiles[file] = true on
a Go map: a set insert, idempotent on repeats. -/
def insertFlag (fl : List String) (f : String) : List String :=
  if f ∈ fl then fl else fl ++ [f]

/-- The file loop inside ScanCommit of part_000: read each file at the
commit revision, inspect it, and add it to the flagged set when findings
are present.  Any read or inspection failure aborts with an error.  The
event list records reads and inspection requests in order. -/
def scanFilesInCommit (R : RepoView) (I : String → Except String (List Finding))
    (c : String) : List String → List String → Except String (List String) × List Ev
  | [], fl => (.ok fl, [])
  | f :: rest, fl =>
    match R.showAt c f with
    | .error e => (.error ("failed to get content of file: " ++ e), [Ev.readAt c f])
    | .ok d =>
      match I d with
      | .error e => (.error e, [Ev.readAt c f, Ev.inspect d])
      | .ok fs =>
        ((scanFilesInCommit R I c rest (if 0 < fs.length then insertFlag fl f else fl)).fst,
          Ev.readAt c f :: Ev.inspect d ::
            (scanFilesInCommit R I c rest (if 0 < fs.length then insertFlag fl f else fl)).snd)

/-- ScanCommit of part_000: list the files changed in the commit and scan
each of them, accumulating the flagged set. -/
def ScanCommit (R : RepoView) (I : String → Except String (List Finding))
    (c : String) (fl : List String) : Except String (List String) × List Ev :=
  match R.filesIn c with
  | .error e => (.error ("failed to get files for commit: " ++ e), [])
  | .ok files => scanFilesInCommit R I c files fl

/-- The commit loop of main (part_000, step 1): scan every commit of the
push range in order, threading the flagged set through; any ScanCommit
error aborts. -/
def scanCommits (R : RepoView) (I : String → Except String (List Finding)) :
    List String → List String → Except String (List String) × List Ev
  | [], fl => (.ok fl, [])
  | c :: rest, fl =>
    match (ScanCommit R I c fl).fst with
    | .error e => (.error e, (ScanCommit R I c fl).snd)
    | .ok fl2 =>
      ((scanCommits R I rest fl2).fst,
        (ScanCommit R I c fl).snd ++ (scanCommits R I rest fl2).snd)

/-- ScanFinalState of part_000: re-read every flagged file at the working
tree (HEAD state) and inspect it; return true as soon as one still has
findings, false when all are clean; fail on any read or inspect error. -/
def ScanFinalState (R : RepoView) (I : String → Except String (List Finding)) :
    List String → Except String Bool × List Ev
  | [] => (.ok false, [])
  | f :: rest =>
    match R.readHead f with
    | .error e => (.error ("could not read file: " ++ e), [Ev.readWT f])
    | .ok d =>
      match I d with
      | .error e => (.error e, [Ev.readWT f, Ev.inspect d])
      | .ok fs =>
        if 0 < fs.length then (.ok true, [Ev.readWT f, Ev.inspect d])
        else
          ((ScanFinalState R I rest).fst,
            Ev.readWT f :: Ev.inspect d :: (ScanFinalState R I rest).snd)

/-- main of part_000: set GIT_HTTP_EXTRAHEADER with a deferred unset, get
the unpushed commits, run the scanning pass, then the final-state pass
over the flagged set only; exit 1 on any error or on a final-state
finding (os.Exit, so the marker stays set there), exit 0 otherwise. -/
def mainRun (upstreamSet : Bool) (rl : Except String (List String))
    (R : RepoView) (I : String → Except String (List Finding)) : RunOut :=
  match GetUnpushedCommits upstreamSet rl with
  | .error _ => ⟨1, true, []⟩
  | .ok commits =>
    match (scanCommits R I commits []).fst with
    | .error _ => ⟨1, true, (scanCommits R I commits []).snd⟩
    | .ok fl =>
      match (ScanFinalState R I fl).fst with
      | .error _ =>
        ⟨1, true, (scanCommits R I commits []).snd ++ (ScanFinalState R I fl).snd⟩
      | .ok true =>
        ⟨1, true, (scanCommits R I commits []).snd ++ (ScanFinalState R I fl).snd⟩
      | .ok false =>
        ⟨0, false, (scanCommits R I commits []).snd ++ (ScanFinalState R I fl).snd⟩

/-- The content of a path at a commit reads successfully and inspects to
at least one finding: the historical snapshot is dirty. -/
def dirtyInCommit (R : RepoView) (I : String → Except String (List Finding))
    (c : String) (p : String) : Prop :=
  ∃ d, R.showAt c p = .ok d ∧ ∃ fs, I d = .ok fs ∧ 0 < fs.length

/-- A commit lists the path among its changed files and the snapshot of
the path at that commit is dirty. -/
def commitHit (R : RepoView) (I : String → Except String (List Finding))
    (c : String) (p : String) : Prop :=
  ∃ files, R.filesIn c = .ok files ∧ p ∈ files ∧ dirtyInCommit R I c p

/-- A path was flagged by the scanning pass: some commit of the range
lists it among its changed files and its content at that commit inspects
to at least one finding. -/
def flaggedInRange (R : RepoView) (I : String → Except String (List Finding))
    (cs : List String) (p : String) : Prop :=
  ∃ c ∈ cs, commitHit R I c p

/-- The HEAD content of a path reads successfully and inspects cleanly. -/
def headClean (R : RepoView) (I : String → Except String (List Finding))
    (f : String) : Prop :=
  ∃ d, R.readHead f = .ok d ∧ ∃ fs, I d = .ok fs ∧ fs.length = 0

/-- The HEAD content of a path reads and inspects successfully. -/
def headOk (R : RepoView) (I : String → Except String (List Finding))
    (f : String) : Prop :=
  ∃ d, R.readHead f = .ok d ∧ ∃ fs, I d = .ok fs

/-- The HEAD content of a path reads successfully and still inspects to at
least one finding. -/
def headDirty (R : RepoView) (I : String → Except String (List Finding))
    (f : String) : Prop :=
  ∃ d, R.readHead f = .ok d ∧ ∃ fs, I d = .ok fs ∧ 0 < fs.length

end RangeScan

namespace PerCommitScan

/-- GetCommitsToPush of src/unnamed/part_002: run git rev-list directly,
with no upstream check; every failure, including the one git reports when
no upstream is configured, is wrapped in the same generic error. -/
def GetCommitsToPush (rl : Except String (List String)) :
    Except UpstreamErr (List String) :=
  match rl with
  | .error e => .error (.revListFailed ("failed to get commits to push: " ++ e))
  | .ok commits => .ok commits

/-- The file loop inside ScanCommit of part_002: read and inspect each
file of the commit, returning true on the first file with findings. -/
def scanFilesInCommit (R : RepoView) (I : String → Except String (List Finding))
    (c : String) : List String → Except String Bool × List Ev
  | [] => (.ok false, [])
  | f :: rest =>
    match R.showAt c f with
    | .error e => (.error ("failed to get content of file: " ++ e), [Ev.readAt c f])
    | .ok d =>
      match I d with
      | .error e => (.error e, [Ev.readAt c f, Ev.inspect d])
      | .ok fs =>
        if 0 < fs.length then (.ok true, [Ev.readAt c f, Ev.inspect d])
        else
          ((scanFilesInCommit R I c rest).fst,
            Ev.readAt c f :: Ev.inspect d :: (scanFilesInCommit R I c rest).snd)

/-- ScanCommit of part_002: list the files of the commit and scan them,
aborting the commit on the first finding. -/
def ScanCommit (R : RepoView) (I : String → Except String (List Finding))
    (c : String) : Except String Bool × List Ev :=
  match R.filesIn c with
  | .error e => (.error ("failed to get files for commit: " ++ e), [])
  | .ok files => scanFilesInCommit R I c files

/-- The commit loop of main (part_002): exit 1 on the first commit whose
scan errors or reports a finding; no final-state re-check exists in this
variant.  The marker was set with a deferred unset, so os.Exit paths
leave it set. -/
def loopCommits (R : RepoView) (I : String → Except String (List Finding)) :
    List String → RunOut
  | [] => ⟨0, false, []⟩
  | c :: rest =>
    match (ScanCommit R I c).fst with
    | .error _ => ⟨1, true, (ScanCommit R I c).snd⟩
    | .ok true => ⟨1, true, (ScanCommit R I c).snd⟩
    | .ok false =>
      ⟨(loopCommits R I rest).exit, (loopCommits R I rest).envSet,
        (ScanCommit R I c).snd ++ (loopCommits R I rest).trace⟩

/-- main of part_002. -/
def mainRun (rl : Except String (List String)) (R : RepoView)
    (I : String → Except String (List Finding)) : RunOut :=
  match GetCommitsToPush rl with
  | .error _ => ⟨1, true, []⟩
  | .ok commits => loopCommits R I commits

end PerCommitScan

namespace ProxyScan

/-- The proxy URL hard-coded in main of src/unnamed/part_003 (first
document). -/
def proxyURL : String := "https://10.13.48.89:80"

/-- ScanFile of part_003 (first document): read and inspect the file; when
findings are present, send ProxyCheck - an HTTP POST to the hard-coded
proxy URL carrying the header DLP-scanned: true - and then return the
sensitive-data error; when the file is clean, return nil with no proxy
request.  pr is the result of the POST. -/
def ScanFile (readF : String → Except String String)
    (I : String → Except String (List Finding))
    (pr : Except String Unit) (f : String) : Except String Unit × List Ev :=
  match readF f with
  | .error e => (.error ("could not read file: " ++ e), [])
  | .ok d =>
    match I d with
    | .error e => (.error ("failed to inspect content: " ++ e), [Ev.inspect d])
    | .ok fs =>
      if 0 < fs.length then
        match pr with
        | .ok _ =>
          (.error ("sensitive data found in file " ++ f),
            [Ev.inspect d, Ev.proxyPost proxyURL "DLP-scanned" "true"])
        | .error e =>
          (.error ("proxy check failed for file " ++ f ++ ": " ++ e),
            [Ev.inspect d, Ev.proxyPost proxyURL "DLP-scanned" "true"])
      else (.ok (), [Ev.inspect d])

/-- The file loop of main (part_003, first document): on a ScanFile error
print the scan-error report and exit 1; continue otherwise; exit 0 after
the loop.  No environment marker exists in this variant. -/
def loopFiles (readF : String → Except String String)
    (I : String → Except String (List Finding))
    (pr : Except String Unit) : List String → RunOut
  | [] => ⟨0, false, []⟩
  | f :: rest =>
    if f = "" then loopFiles readF I pr rest
    else
      match ScanFile readF I pr f with
      | (.error m, t) => ⟨1, false, t ++ [Ev.abortReport m]⟩
      | (.ok _, t) =>
        ⟨(loopFiles readF I pr rest).exit, (loopFiles readF I pr rest).envSet,
          t ++ (loopFiles readF I pr rest).trace⟩

/-- main of part_003 (first document). -/
def mainRun (filesR : Except String (List String))
    (readF : String → Except String String)
    (I : String → Except String (List Finding))
    (pr : Except String Unit) : RunOut :=
  match filesR with
  | .error _ => ⟨1, false, []⟩
  | .ok files => loopFiles readF I pr files

end ProxyScan

/-!
Concrete collaborator instances used to evaluate the models on specific
scenarios.  Each is a deterministic stand-in for the git repository or the
DLP classifier, scripted on a handful of file names and contents.
-/

/-- A working tree holding one file b.txt whose content carries a RampID
token matching the custom detector pattern. -/
def readOneDirty : String → Except String String := fun f =>
  if f = "b.txt" then .ok "XY1234 token" else .error "no such file"

/-- A working tree holding a clean a.txt and a b.txt carrying a RampID
token. -/
def readCleanDirty : String → Except String String := fun f =>
  if f = "a.txt" then .ok "clean data"
  else if f = "b.txt" then .ok "XY1234 token"
  else .error "no such file"

/-- A deterministic classifier reporting one RampID finding on the token
content and nothing elsewhere. -/
def inspectRamp : String → Except String (List Finding) := fun t =>
  if t = "XY1234 token" then .ok [⟨"RampID", 1⟩] else .ok []

/-- A working tree holding two files whose contents both carry sensitive
data according to inspectTwoDirty. -/
def readTwoDirty : String → Except String String := fun f =>
  if f = "a.txt" then .ok "mail a@b.com"
  else if f = "b.txt" then .ok "phone 555-0100"
  else .error "no such file"

/-- A deterministic classifier flagging both contents of readTwoDirty. -/
def inspectTwoDirty : String → Except String (List Finding) := fun t =>
  if t = "mail a@b.com" then .ok [⟨"EMAIL_ADDRESS", 3⟩]
  else if t = "phone 555-0100" then .ok [⟨"PHONE_NUMBER", 3⟩]
  else .ok []

/-- A repository whose push range commit c1 introduces a social security
number in secrets.txt, fixed at HEAD where the file reads REDACTED. -/
def repoTransient : RepoView where
  filesIn := fun c => if c = "c1" then .ok ["secrets.txt"] else .error "unknown commit"
  showAt := fun c f =>
    if c = "c1" ∧ f = "secrets.txt" then .ok "ssn 123-45-6789" else .error "missing"
  readHead := fun f => if f = "secrets.txt" then .ok "ssn REDACTED" else .error "missing"

/-- A repository with two commits: c1 introduces the secret in
secrets.txt, c2 rewrites the same file cleanly; HEAD is clean. -/
def repoFixed : RepoView where
  filesIn := fun c =>
    if c = "c1" then .ok ["secrets.txt"]
    else if c = "c2" then .ok ["secrets.txt"]
    else .error "unknown commit"
  showAt := fun c f =>
    if c = "c1" ∧ f = "secrets.txt" then .ok "ssn 123-45-6789"
    else if c = "c2" ∧ f = "secrets.txt" then .ok "ssn REDACTED"
    else .error "missing"
  readHead := fun f => if f = "secrets.txt" then .ok "ssn REDACTED" else .error "missing"

/-- A deterministic classifier reporting a social security number finding
on the secret content and nothing on the redacted content. -/
def inspectSsn : String → Except String (List Finding) := fun t =>
  if t = "ssn 123-45-6789" then .ok [⟨"US_SOCIAL_SECURITY_NUMBER", 2⟩] else .ok []

/-- A classifier that is entirely unavailable: every request fails. -/
def inspectDown : String → Except String (List Finding) := fun _ =>
  .error "inspection unavailable"

/-!
Claim theorems.
-/

/-- Claim C1 (code bug).  The claim says a non-zero exit is signalled
whenever any finally-checked file yields a finding, for every variant.  In
the part_001 variant, a changed file whose working-tree content yields a
finding only makes ScanFile skip the push and return nil; the loop then
completes and the process exits 0, reporting success.  This theorem
evaluates the part_001 model at that failing input: the only changed file
carries a RampID token with one finding, yet the exit code is 0. -/
theorem c1_per_file_push_exits_zero_on_finding :
    PerFilePush.mainRun (.ok ["b.txt"]) readOneDirty inspectRamp (.ok ())
      = ⟨0, false, [Ev.inspect "XY1234 token"]⟩ ∧
    inspectRamp "XY1234 token" = .ok [⟨"RampID", 1⟩] := by
  constructor
  · rfl
  · rfl

/-- Claim C3 (code bug).  The claim says the text submitted to the
inspector is exactly the payload content.  In the HTTP middleware variant
of main.go, inspectContent sends the literal request value Test data and
ignores the content parameter (the content-based request is commented
out), so a payload carrying an email address is inspected as Test data
and reported clean.  This theorem evaluates the model at that failing
input with a classifier that flags the payload itself. -/
theorem c3_inspect_content_sends_substitute_text :
    HttpServerScan.submittedText "contact: a@b.com" = "Test data" ∧
    HttpServerScan.submittedText "contact: a@b.com" ≠ "contact: a@b.com" ∧
    HttpServerScan.inspectContent
      (fun t => if t = "contact: a@b.com"
        then .ok [⟨"EMAIL_ADDRESS", 3⟩] else .ok [])
      "contact: a@b.com" = .ok [] := by
  refine ⟨rfl, by decide, rfl⟩

/-- Claim C6 (code bug).  The claim says the push is never invoked during
an invocation whose decision is Abort.  In the part_001 variant the push
runs per clean file: with a clean a.txt followed by a b.txt carrying a
finding, git push is invoked for a.txt before b.txt is even inspected, so
the push happens in an invocation in which sensitive data is found.  This
theorem evaluates the model at that input: the trace contains the push
event followed by the inspection of the dirty content, and the run even
exits 0. -/
theorem c6_per_file_push_runs_push_despite_finding :
    PerFilePush.mainRun (.ok ["a.txt", "b.txt"]) readCleanDirty inspectRamp (.ok ())
      = ⟨0, false, [Ev.inspect "clean data", Ev.push, Ev.inspect "XY1234 token"]⟩ ∧
    inspectRamp "XY1234 token" = .ok [⟨"RampID", 1⟩] ∧
    Ev.push ∈ (PerFilePush.mainRun (.ok ["a.txt", "b.txt"])
      readCleanDirty inspectRamp (.ok ())).trace := by
  refine ⟨rfl, rfl, by decide⟩

/-- Claim C9 (code bug).  The claim says the GIT_HTTP_EXTRAHEADER marker
is cleared on every exit path.  In main.go the marker is set at the start
of main with a deferred os.Unsetenv, but every abort path terminates via
os.Exit(1), which does not run deferred calls, so the marker is still set
at the instant the process terminates.  This theorem evaluates the
main.go model at a failing input: one changed file with a finding makes
the run take the os.Exit(1) path with envSet still true. -/
theorem c9_marker_left_set_on_abort_path :
    HookScan.mainRun (.ok ["b.txt"]) readOneDirty inspectRamp
      = ⟨1, true, [Ev.inspect "XY1234 token"]⟩ := by
  rfl

/-- Claim C2, counterexample.  The claim says that in commit-range mode no
per-commit abort occurs and a file flagged in a commit but clean at the
tip yields Proceed.  The part_002 variant is a commit-range scanner (it
enumerates the upstream..HEAD range) yet ScanCommit returns true on the
first historical finding and main exits 1 immediately, with no final-state
re-check: on a range whose commit c1 contains a transient secret that is
redacted at HEAD, the run exits 1 instead of proceeding. -/
theorem c2_counterexample_per_commit_abort :
    (PerCommitScan.mainRun (.ok ["c1"]) repoTransient inspectSsn).exit = 1 ∧
    repoTransient.readHead "secrets.txt" = .ok "ssn REDACTED" ∧
    inspectSsn "ssn REDACTED" = .ok [] ∧
    inspectSsn "ssn 123-45-6789" = .ok [⟨"US_SOCIAL_SECURITY_NUMBER", 2⟩] := by
  refine ⟨rfl, rfl, rfl, rfl⟩

/-- Claim C7, counterexample.  The claim says that on a finding the
orchestrator still inspects every remaining file and reports all offending
files before exiting.  In main.go the loop calls os.Exit(1) on the first
finding: with two changed files that both carry sensitive data, the trace
contains only the inspection of the first file and the second offending
file is never inspected. -/
theorem c7_counterexample_stops_at_first_finding :
    HookScan.mainRun (.ok ["a.txt", "b.txt"]) readTwoDirty inspectTwoDirty
      = ⟨1, true, [Ev.inspect "mail a@b.com"]⟩ ∧
    inspectTwoDirty "phone 555-0100" = .ok [⟨"PHONE_NUMBER", 3⟩] ∧
    Ev.inspect "phone 555-0100" ∉ (HookScan.mainRun (.ok ["a.txt", "b.txt"])
      readTwoDirty inspectTwoDirty).trace := by
  refine ⟨rfl, rfl, by decide⟩

/-- Claim C8, counterexample.  The claim says a distinct NoUpstreamError
is raised when no upstream is configured.  In the part_002 variant there
is no upstream check: when git rev-list fails because no upstream is
configured, GetCommitsToPush wraps the failure in the same generic error
it uses for every other rev-list failure, so no distinct no-upstream
error is ever produced. -/
theorem c8_counterexample_generic_error_in_part_002 :
    PerCommitScan.GetCommitsToPush (.error "fatal: no upstream configured for branch")
      = .error (.revListFailed
        "failed to get commits to push: fatal: no upstream configured for branch") ∧
    PerCommitScan.GetCommitsToPush (.error "fatal: no upstream configured for branch")
      ≠ .error UpstreamErr.noUpstream := by
  constructor
  · rfl
  · intro h
    simp [PerCommitScan.GetCommitsToPush] at h

/-!
Helper lemmas about the last-commit loops.
-/

namespace HookScan

/-- Running the main.go loop over a clean prefix behaves like running it
over the suffix alone, with the inspections of the prefix prepended to
the trace. -/
theorem hookLoop_clean_append (readF : String → Except String String)
    (I : String → Except String (List Finding)) (pre l : List String)
    (hpre : ∀ g ∈ pre, cleanEntry readF I g) :
    loopFiles readF I (pre ++ l) =
      ⟨(loopFiles readF I l).exit, (loopFiles readF I l).envSet,
        cleanTrace readF pre ++ (loopFiles readF I l).trace⟩ := by
  induction pre with
  | nil => simp [cleanTrace]
  | cons g pre ih =>
    have hrest : ∀ x ∈ pre, cleanEntry readF I x :=
      fun x hx => hpre x (List.mem_cons_of_mem _ hx)
    by_cases hg : g = ""
    · subst hg
      simpa [loopFiles, cleanTrace] using ih hrest
    · rcases hpre g (List.mem_cons_self g pre) with hemp | ⟨d, fs, hd, hi, hlen⟩
      · exact absurd hemp hg
      · have hdec : decide (0 < fs.length) = false := by simp [hlen]
        simp only [List.cons_append, loopFiles, if_neg hg, ScanFile, hd, hi, hdec,
          cleanTrace, ih hrest]
        simp [hd, ih hrest]

end HookScan

/-- Every event of a clean trace is an inspection event. -/
theorem cleanTrace_events (readF : String → Except String String) :
    ∀ files e, e ∈ cleanTrace readF files → ∃ t, e = Ev.inspect t := by
  intro files
  induction files with
  | nil => intro e he; simp [cleanTrace] at he
  | cons f rest ih =>
    intro e he
    by_cases hf : f = ""
    · exact ih e (by simpa [cleanTrace, hf] using he)
    · rcases hd : readF f with e0 | d
      · exact ih e (by simpa [cleanTrace, hf, hd] using he)
      · rcases (by simpa [cleanTrace, hf, hd] using he : e = Ev.inspect d ∨ e ∈ cleanTrace readF rest) with h | h
        · exact ⟨d, h⟩
        · exact ih e h

/-- Claim C7, amended.  In the last-commit variants the orchestrator
aborts on the first finding: with a clean prefix and a first offending
file, the run exits 1 immediately after inspecting that file, and the
result does not depend on the remaining files, which are never read or
inspected (the conclusion makes no reference to rest). -/
theorem c7_amended_abort_on_first_finding
    (readF : String → Except String String)
    (I : String → Except String (List Finding))
    (pre : List String) (f : String) (rest : List String)
    (d : String) (fs : List Finding)
    (hpre : ∀ g ∈ pre, cleanEntry readF I g) (hf : f ≠ "")
    (hd : readF f = .ok d) (hi : I d = .ok fs) (hlen : 0 < fs.length) :
    HookScan.mainRun (.ok (pre ++ f :: rest)) readF I
      = ⟨1, true, cleanTrace readF pre ++ [Ev.inspect d]⟩ := by
  have hdec : decide (0 < fs.length) = true := by simpa using hlen
  simp only [HookScan.mainRun,
    HookScan.hookLoop_clean_append readF I pre (f :: rest) hpre,
    HookScan.loopFiles, if_neg hf, HookScan.ScanFile, hd, hi, hdec]

/-- Witness for the amended claim C7: concrete clean file a.txt followed
by an offending b.txt and a trailing c.txt; the run exits 1 with only the
two inspections in the trace, never touching c.txt. -/
theorem c7_amended_witness :
    (∀ g ∈ ["a.txt"], cleanEntry readCleanDirty inspectRamp g) ∧
    HookScan.mainRun (.ok (["a.txt"] ++ "b.txt" :: ["c.txt"])) readCleanDirty inspectRamp
      = ⟨1, true, cleanTrace readCleanDirty ["a.txt"] ++ [Ev.inspect "XY1234 token"]⟩ := by
  have hpre : ∀ g ∈ ["a.txt"], cleanEntry readCleanDirty inspectRamp g := by
    intro g hg
    have hg2 : g = "a.txt" := by simpa using hg
    subst hg2
    exact Or.inr ⟨"clean data", [], rfl, rfl, rfl⟩
  exact ⟨hpre, c7_amended_abort_on_first_finding readCleanDirty inspectRamp
    ["a.txt"] "b.txt" ["c.txt"] "XY1234 token" [⟨"RampID", 1⟩]
    hpre (by decide) rfl rfl (by decide)⟩

namespace ProxyScan

/-- Running the part_003 loop over a clean prefix behaves like running it
over the suffix alone, with the inspections of the prefix prepended. -/
theorem proxyLoop_clean_append (readF : String → Except String String)
    (I : String → Except String (List Finding)) (pr : Except String Unit)
    (pre l : List String)
    (hpre : ∀ g ∈ pre, cleanEntry readF I g) :
    loopFiles readF I pr (pre ++ l) =
      ⟨(loopFiles readF I pr l).exit, (loopFiles readF I pr l).envSet,
        cleanTrace readF pre ++ (loopFiles readF I pr l).trace⟩ := by
  induction pre with
  | nil => simp [cleanTrace]
  | cons g pre ih =>
    have hrest : ∀ x ∈ pre, cleanEntry readF I x :=
      fun x hx => hpre x (List.mem_cons_of_mem _ hx)
    by_cases hg : g = ""
    · subst hg
      simpa [loopFiles, cleanTrace] using ih hrest
    · rcases hpre g (List.mem_cons_self g pre) with hemp | ⟨d, fs, hd, hi, hlen⟩
      · exact absurd hemp hg
      · have hnlt : ¬ 0 < fs.length := by simp [hlen]
        simp only [List.cons_append, loopFiles, if_neg hg, ScanFile, hd, hi,
          if_neg hnlt, cleanTrace, ih hrest]
        simp [hd, ih hrest]

end ProxyScan

/-- Claim C10.  In the proxy-check variant, a scanned file with findings
triggers exactly one outbound POST to the hard-coded proxy URL carrying
the header DLP-scanned: true, before the abort report, and a run over
clean files performs no proxy request at all.  First conjunct: an
all-clean scope exits 0 with a trace of inspections only, containing no
proxy request.  Second conjunct: a clean prefix followed by an offending
file yields exit 1 with the inspection, the proxy POST and then the abort
report, independent of the remaining files. -/
theorem c10_proxy_post_iff_finding
    (readF : String → Except String String)
    (I : String → Except String (List Finding))
    (files pre rest : List String) (f d : String) (fs : List Finding) :
    ((∀ g ∈ files, cleanEntry readF I g) →
      ProxyScan.mainRun (.ok files) readF I (.ok ())
        = ⟨0, false, cleanTrace readF files⟩ ∧
      ∀ u hn hv, Ev.proxyPost u hn hv ∉
        (ProxyScan.mainRun (.ok files) readF I (.ok ())).trace) ∧
    ((∀ g ∈ pre, cleanEntry readF I g) → f ≠ "" →
      readF f = .ok d → I d = .ok fs → 0 < fs.length →
      ProxyScan.mainRun (.ok (pre ++ f :: rest)) readF I (.ok ())
        = ⟨1, false, cleanTrace readF pre ++
            [Ev.inspect d, Ev.proxyPost ProxyScan.proxyURL "DLP-scanned" "true",
             Ev.abortReport ("sensitive data found in file " ++ f)]⟩) := by
  constructor
  · intro hclean
    have hmain : ProxyScan.mainRun (.ok files) readF I (.ok ())
        = ⟨0, false, cleanTrace readF files⟩ := by
      have h := ProxyScan.proxyLoop_clean_append readF I (.ok ()) files [] hclean
      rw [List.append_nil] at h
      simpa [ProxyScan.mainRun, ProxyScan.loopFiles] using h
    refine ⟨hmain, ?_⟩
    intro u hn hv hmem
    rw [hmain] at hmem
    rcases cleanTrace_events readF files _ hmem with ⟨t, ht⟩
    exact Ev.noConfusion ht
  · intro hpre hf hd hi hlen
    simp only [ProxyScan.mainRun,
      ProxyScan.proxyLoop_clean_append readF I (.ok ()) pre (f :: rest) hpre,
      ProxyScan.loopFiles, if_neg hf, ProxyScan.ScanFile, hd, hi, if_pos hlen]
    simp

/-- Witness for claim C10: a clean a.txt run exits 0 with no proxy POST,
and a run on the offending b.txt exits 1 with the proxy POST carrying the
DLP-scanned header followed by the abort report. -/
theorem c10_witness :
    ProxyScan.mainRun (.ok ["a.txt"]) readCleanDirty inspectRamp (.ok ())
      = ⟨0, false, [Ev.inspect "clean data"]⟩ ∧
    (∀ u hn hv, Ev.proxyPost u hn hv ∉
      (ProxyScan.mainRun (.ok ["a.txt"]) readCleanDirty inspectRamp (.ok ())).trace) ∧
    ProxyScan.mainRun (.ok ["b.txt"]) readCleanDirty inspectRamp (.ok ())
      = ⟨1, false, [Ev.inspect "XY1234 token",
          Ev.proxyPost ProxyScan.proxyURL "DLP-scanned" "true",
          Ev.abortReport "sensitive data found in file b.txt"]⟩ := by
  have hclean : ∀ g ∈ ["a.txt"], cleanEntry readCleanDirty inspectRamp g := by
    intro g hg
    have hg2 : g = "a.txt" := by simpa using hg
    subst hg2
    exact Or.inr ⟨"clean data", [], rfl, rfl, rfl⟩
  have h1 := (c10_proxy_post_iff_finding readCleanDirty inspectRamp
    ["a.txt"] [] [] "b.txt" "XY1234 token" [⟨"RampID", 1⟩]).1 hclean
  have h2 := (c10_proxy_post_iff_finding readCleanDirty inspectRamp
    ["a.txt"] [] [] "b.txt" "XY1234 token" [⟨"RampID", 1⟩]).2
    (by intro g hg; simp at hg) (by decide) rfl rfl (by decide)
  refine ⟨h1.1.trans (by decide), h1.2, h2.trans (by decide)⟩

/-!
Fail-closed behaviour: every inspection request recorded in the trace of
a run that exits 0 must have succeeded.
-/

namespace HookScan

/-- In the main.go loop, a zero exit code implies every inspection request
in the trace succeeded. -/
theorem loopFiles_exit_zero_inspects (readF : String → Except String String)
    (I : String → Except String (List Finding)) :
    ∀ files, (loopFiles readF I files).exit = 0 →
      ∀ t, Ev.inspect t ∈ (loopFiles readF I files).trace → ∃ fs, I t = .ok fs := by
  intro files
  induction files with
  | nil => intro _ t ht; simp [loopFiles] at ht
  | cons f rest ih =>
    by_cases hf : f = ""
    · simpa [loopFiles, hf] using ih
    · rcases hd : readF f with e | d
      · intro h0; simp [loopFiles, hf, ScanFile, hd] at h0
      · rcases hi : I d with e | fs
        · intro h0; simp [loopFiles, hf, ScanFile, hd, hi] at h0
        · cases hb : decide (0 < fs.length) with
          | true => intro h0; simp [loopFiles, hf, ScanFile, hd, hi, hb] at h0
          | false =>
            intro h0 t ht
            simp only [loopFiles, if_neg hf, ScanFile, hd, hi, hb] at h0 ht
            rcases (by simpa using ht :
                t = d ∨ Ev.inspect t ∈ (loopFiles readF I rest).trace) with h | h
            · subst h; exact ⟨fs, hi⟩
            · exact ih (by simpa using h0) t h

end HookScan

namespace RangeScan

/-- In the part_000 per-commit file loop, a successful result implies
every inspection request in the trace succeeded. -/
theorem scanFilesInCommit_ok_inspects (R : RepoView)
    (I : String → Except String (List Finding)) (c : String) :
    ∀ files fl F, (scanFilesInCommit R I c files fl).fst = .ok F →
      ∀ t, Ev.inspect t ∈ (scanFilesInCommit R I c files fl).snd →
        ∃ fs, I t = .ok fs := by
  intro files
  induction files with
  | nil => intro fl F _ t ht; simp [scanFilesInCommit] at ht
  | cons f rest ih =>
    intro fl F hok t ht
    rcases hs : R.showAt c f with e | d
    · simp [scanFilesInCommit, hs] at hok
    · rcases hi : I d with e | fs
      · simp [scanFilesInCommit, hs, hi] at hok
      · simp only [scanFilesInCommit, hs, hi] at hok ht
        rcases (by simpa using ht :
            t = d ∨ Ev.inspect t ∈
              (scanFilesInCommit R I c rest
                (if 0 < fs.length then insertFlag fl f else fl)).snd) with h | h
        · subst h; exact ⟨fs, hi⟩
        · exact ih _ F hok t h

/-- In the part_000 commit loop, a successful result implies every
inspection request in the trace succeeded. -/
theorem scanCommits_ok_inspects (R : RepoView)
    (I : String → Except String (List Finding)) :
    ∀ cs fl F, (scanCommits R I cs fl).fst = .ok F →
      ∀ t, Ev.inspect t ∈ (scanCommits R I cs fl).snd → ∃ fs, I t = .ok fs := by
  intro cs
  induction cs with
  | nil => intro fl F _ t ht; simp [scanCommits] at ht
  | cons c rest ih =>
    intro fl F hok t ht
    rcases hfi : R.filesIn c with e | files
    · simp [scanCommits, ScanCommit, hfi] at ht
    · rcases hsf : (scanFilesInCommit R I c files fl).fst with e | fl2
      · simp [scanCommits, ScanCommit, hfi, hsf] at hok
      · simp only [scanCommits, ScanCommit, hfi, hsf] at hok ht
        rcases (by simpa using ht :
            Ev.inspect t ∈ (scanFilesInCommit R I c files fl).snd ∨
              Ev.inspect t ∈ (scanCommits R I rest fl2).snd) with h | h
        · exact scanFilesInCommit_ok_inspects R I c files fl fl2 hsf t h
        · exact ih fl2 F hok t h

/-- In the part_000 final-state pass, a successful result implies every
inspection request in the trace succeeded. -/
theorem scanFinalState_ok_inspects (R : RepoView)
    (I : String → Except String (List Finding)) :
    ∀ L b, (ScanFinalState R I L).fst = .ok b →
      ∀ t, Ev.inspect t ∈ (ScanFinalState R I L).snd → ∃ fs, I t = .ok fs := by
  intro L
  induction L with
  | nil => intro b _ t ht; simp [ScanFinalState] at ht
  | cons f rest ih =>
    intro b hok t ht
    rcases hr : R.readHead f with e | d
    · simp [ScanFinalState, hr] at hok
    · rcases hi : I d with e | fs
      · simp [ScanFinalState, hr, hi] at hok
      · by_cases hlen : 0 < fs.length
        · simp only [ScanFinalState, hr, hi, if_pos hlen] at hok ht
          rcases (by simpa using ht : t = d) with h
          subst h; exact ⟨fs, hi⟩
        · simp only [ScanFinalState, hr, hi, if_neg hlen] at hok ht
          rcases (by simpa using ht :
              t = d ∨ Ev.inspect t ∈ (ScanFinalState R I rest).snd) with h | h
          · subst h; exact ⟨fs, hi⟩
          · exact ih b hok t h

/-- In part_000, a run that exits 0 inspected successfully everything it
sent to the inspector. -/
theorem mainRun_exit_zero_inspects (upstreamSet : Bool)
    (rl : Except String (List String)) (R : RepoView)
    (I : String → Except String (List Finding)) :
    (mainRun upstreamSet rl R I).exit = 0 →
    ∀ t, Ev.inspect t ∈ (mainRun upstreamSet rl R I).trace →
      ∃ fs, I t = .ok fs := by
  intro h0 t ht
  rcases hG : GetUnpushedCommits upstreamSet rl with e | cs
  · simp [mainRun, hG] at h0
  · rcases hsc : (scanCommits R I cs []).fst with e | fl
    · simp [mainRun, hG, hsc] at h0
    · rcases hfs : (ScanFinalState R I fl).fst with e | b
      · simp [mainRun, hG, hsc, hfs] at h0
      · cases b with
        | true => simp [mainRun, hG, hsc, hfs] at h0
        | false =>
          simp only [mainRun, hG, hsc, hfs] at ht
          rcases (by simpa using ht :
              Ev.inspect t ∈ (scanCommits R I cs []).snd ∨
                Ev.inspect t ∈ (ScanFinalState R I fl).snd) with h | h
          · exact scanCommits_ok_inspects R I cs [] fl hsc t h
          · exact scanFinalState_ok_inspects R I fl false hfs t h

end RangeScan

/-- Claim C4.  Any inspection failure makes the whole scan fail hard: in
the part_000 commit-range variant and in the main.go last-commit variant,
whenever an inspection request recorded in the run trace failed, the exit
code is non-zero - an inspection failure is never treated as a clean
result. -/
theorem c4_inspect_failure_never_proceeds :
    (∀ (upstreamSet : Bool) (rl : Except String (List String)) (R : RepoView)
        (I : String → Except String (List Finding)) (t e : String),
      Ev.inspect t ∈ (RangeScan.mainRun upstreamSet rl R I).trace →
      I t = .error e → (RangeScan.mainRun upstreamSet rl R I).exit ≠ 0) ∧
    (∀ (filesR : Except String (List String))
        (readF : String → Except String String)
        (I : String → Except String (List Finding)) (t e : String),
      Ev.inspect t ∈ (HookScan.mainRun filesR readF I).trace →
      I t = .error e → (HookScan.mainRun filesR readF I).exit ≠ 0) := by
  constructor
  · intro u rl R I t e ht he h0
    rcases RangeScan.mainRun_exit_zero_inspects u rl R I h0 t ht with ⟨fs, hfs⟩
    rw [he] at hfs
    exact Except.noConfusion hfs
  · intro filesR readF I t e ht he h0
    rcases filesR with e2 | files
    · simp [HookScan.mainRun] at ht
    · rcases HookScan.loopFiles_exit_zero_inspects readF I files
        (by simpa [HookScan.mainRun] using h0) t
        (by simpa [HookScan.mainRun] using ht) with ⟨fs, hfs⟩
      rw [he] at hfs
      exact Except.noConfusion hfs

/-- Witness for claim C4: with the inspector entirely unavailable, the
part_000 run over one commit makes one inspection request, which is in
the trace and failed, and the run does not exit 0. -/
theorem c4_witness :
    Ev.inspect "ssn 123-45-6789"
      ∈ (RangeScan.mainRun true (.ok ["c1"]) repoTransient inspectDown).trace ∧
    (RangeScan.mainRun true (.ok ["c1"]) repoTransient inspectDown).exit ≠ 0 := by
  refine ⟨by decide, ?_⟩
  exact c4_inspect_failure_never_proceeds.1 true (.ok ["c1"]) repoTransient
    inspectDown "ssn 123-45-6789" "inspection unavailable" (by decide) rfl

/-!
The flagged set of the part_000 scanning pass: characterization and
monotonicity.
-/

namespace RangeScan

/-- Membership after a set insert. -/
theorem insertFlag_mem (fl : List String) (f p : String) :
    p ∈ insertFlag fl f ↔ p ∈ fl ∨ p = f := by
  by_cases h : f ∈ fl
  · simp only [insertFlag, if_pos h]
    constructor
    · exact Or.inl
    · rintro (hp | hp)
      · exact hp
      · subst hp; exact h
  · simp [insertFlag, if_neg h]

/-- Characterization of the flagged set produced by the file loop of one
commit: a path is in the result exactly when it was already flagged or it
is one of the files of this commit and its snapshot at the commit is
dirty. -/
theorem scanFilesInCommit_ok_mem (R : RepoView)
    (I : String → Except String (List Finding)) (c : String) :
    ∀ files fl F, (scanFilesInCommit R I c files fl).fst = .ok F →
      ∀ p, p ∈ F ↔ p ∈ fl ∨ (p ∈ files ∧ dirtyInCommit R I c p) := by
  intro files
  induction files with
  | nil =>
    intro fl F hok p
    have hF : fl = F := by simpa [scanFilesInCommit] using hok
    subst hF
    simp
  | cons f rest ih =>
    intro fl F hok p
    rcases hs : R.showAt c f with e | d
    · simp [scanFilesInCommit, hs] at hok
    · rcases hi : I d with e | fs
      · simp [scanFilesInCommit, hs, hi] at hok
      · simp only [scanFilesInCommit, hs, hi] at hok
        by_cases hlen : 0 < fs.length
        · rw [if_pos hlen] at hok
          rw [ih (insertFlag fl f) F hok p, insertFlag_mem]
          constructor
          · rintro ((hp | hp) | ⟨hp, hd2⟩)
            · exact Or.inl hp
            · rw [hp]
              exact Or.inr ⟨List.mem_cons_self f rest, ⟨d, hs, fs, hi, hlen⟩⟩
            · exact Or.inr ⟨List.mem_cons_of_mem f hp, hd2⟩
          · rintro (hp | ⟨hp, hd2⟩)
            · exact Or.inl (Or.inl hp)
            · rcases List.mem_cons.mp hp with hp | hp
              · exact Or.inl (Or.inr hp)
              · exact Or.inr ⟨hp, hd2⟩
        · rw [if_neg hlen] at hok
          rw [ih fl F hok p]
          constructor
          · rintro (hp | ⟨hp, hd2⟩)
            · exact Or.inl hp
            · exact Or.inr ⟨List.mem_cons_of_mem f hp, hd2⟩
          · rintro (hp | ⟨hp, hd2⟩)
            · exact Or.inl hp
            · rcases List.mem_cons.mp hp with hp | hp
              · rcases hd2 with ⟨d2, hs2, fs2, hi2, hlen2⟩
                rw [hp, hs] at hs2
                injection hs2 with hde
                subst hde
                rw [hi] at hi2
                injection hi2 with hfe
                subst hfe
                exact absurd hlen2 hlen
              · exact Or.inr ⟨hp, hd2⟩

/-- Characterization of the flagged set produced by one ScanCommit. -/
theorem scanCommit_ok_mem (R : RepoView)
    (I : String → Except String (List Finding)) (c : String)
    (fl F : List String) (hok : (ScanCommit R I c fl).fst = .ok F) (p : String) :
    p ∈ F ↔ p ∈ fl ∨ commitHit R I c p := by
  rcases hfi : R.filesIn c with e | files
  · simp [ScanCommit, hfi] at hok
  · simp only [ScanCommit, hfi] at hok
    rw [scanFilesInCommit_ok_mem R I c files fl F hok p]
    constructor
    · rintro (hp | ⟨hp, hd2⟩)
      · exact Or.inl hp
      · exact Or.inr ⟨files, hfi, hp, hd2⟩
    · rintro (hp | ⟨files2, hfi2, hp, hd2⟩)
      · exact Or.inl hp
      · rw [hfi] at hfi2
        injection hfi2 with hfe
        subst hfe
        exact Or.inr ⟨hp, hd2⟩

/-- Characterization of the flagged set produced by the whole scanning
pass: a path is flagged exactly when it was flagged on entry or some
commit of the range hit it. -/
theorem scanCommits_ok_mem (R : RepoView)
    (I : String → Except String (List Finding)) :
    ∀ cs fl F, (scanCommits R I cs fl).fst = .ok F →
      ∀ p, p ∈ F ↔ p ∈ fl ∨ flaggedInRange R I cs p := by
  intro cs
  induction cs with
  | nil =>
    intro fl F hok p
    have hF : fl = F := by simpa [scanCommits] using hok
    subst hF
    simp [flaggedInRange]
  | cons c rest ih =>
    intro fl F hok p
    rcases hsc : (ScanCommit R I c fl).fst with e | fl2
    · simp [scanCommits, hsc] at hok
    · simp only [scanCommits, hsc] at hok
      rw [ih fl2 F hok p, scanCommit_ok_mem R I c fl fl2 hsc p]
      have hfr : flaggedInRange R I (c :: rest) p ↔
          commitHit R I c p ∨ flaggedInRange R I rest p := by
        simp [flaggedInRange, List.mem_cons, exists_eq_or_imp]
      rw [hfr]
      tauto

/-- Splitting the scanning pass at an append of commit ranges. -/
theorem scanCommits_append (R : RepoView)
    (I : String → Except String (List Finding)) :
    ∀ cs1 cs2 fl F, (scanCommits R I (cs1 ++ cs2) fl).fst = .ok F →
      ∃ F1, (scanCommits R I cs1 fl).fst = .ok F1 ∧
        (scanCommits R I cs2 F1).fst = .ok F := by
  intro cs1
  induction cs1 with
  | nil =>
    intro cs2 fl F hok
    exact ⟨fl, by simp [scanCommits], by simpa using hok⟩
  | cons c rest ih =>
    intro cs2 fl F hok
    rcases hsc : (ScanCommit R I c fl).fst with e | fl2
    · simp only [List.cons_append, scanCommits, hsc] at hok
      exact Except.noConfusion hok
    · simp only [List.cons_append, scanCommits, hsc] at hok
      rcases ih cs2 fl2 F hok with ⟨F1, h1, h2⟩
      exact ⟨F1, by simp [scanCommits, hsc, h1], h2⟩

end RangeScan

/-- Claim C5.  After a successful scanning pass over the commit range
starting from the empty flagged set, a path is in the flagged set exactly
when some commit of the range lists it and its snapshot at that commit
yields at least one finding; and membership is monotonic: extending the
range with further commits (including ones that touch the path cleanly)
never removes a flagged path. -/
theorem c5_flagged_set_characterization (R : RepoView)
    (I : String → Except String (List Finding)) (cs F : List String)
    (p : String) (hok : (RangeScan.scanCommits R I cs []).fst = .ok F) :
    (p ∈ F ↔ RangeScan.flaggedInRange R I cs p) ∧
    (∀ cs2 F2, (RangeScan.scanCommits R I (cs ++ cs2) []).fst = .ok F2 →
      p ∈ F → p ∈ F2) := by
  constructor
  · simpa using RangeScan.scanCommits_ok_mem R I cs [] F hok p
  · intro cs2 F2 hok2 hpF
    rcases RangeScan.scanCommits_append R I cs cs2 [] F2 hok2 with ⟨F1, h1, h2⟩
    have hFe : F = F1 := by
      rw [hok] at h1
      exact Except.ok.inj h1
    exact (RangeScan.scanCommits_ok_mem R I cs2 F1 F2 h2 p).mpr
      (Or.inl (hFe ▸ hpF))

/-- Witness for claim C5: commit c1 flags secrets.txt; extending the range
with commit c2, which rewrites the file cleanly, keeps it flagged. -/
theorem c5_witness :
    (RangeScan.scanCommits repoFixed inspectSsn ["c1"] []).fst
      = .ok ["secrets.txt"] ∧
    RangeScan.flaggedInRange repoFixed inspectSsn ["c1"] "secrets.txt" ∧
    (RangeScan.scanCommits repoFixed inspectSsn (["c1"] ++ ["c2"]) []).fst
      = .ok ["secrets.txt"] ∧
    "secrets.txt" ∈ (["secrets.txt"] : List String) := by
  have hok : (RangeScan.scanCommits repoFixed inspectSsn ["c1"] []).fst
      = .ok ["secrets.txt"] := rfl
  have hok2 : (RangeScan.scanCommits repoFixed inspectSsn (["c1"] ++ ["c2"]) []).fst
      = .ok ["secrets.txt"] := rfl
  have h := c5_flagged_set_characterization repoFixed inspectSsn
    ["c1"] ["secrets.txt"] "secrets.txt" hok
  exact ⟨hok, h.1.mp (by decide), hok2, h.2 ["c2"] ["secrets.txt"] hok2 (by decide)⟩

/-!
The deferred final-state pass of part_000 and the resulting decision.
-/

/-- A repository whose push range commit c1 introduces a social security
number in secrets.txt that is never fixed: HEAD still carries it. -/
def repoNeverFixed : RepoView where
  filesIn := fun c => if c = "c1" then .ok ["secrets.txt"] else .error "unknown commit"
  showAt := fun c f =>
    if c = "c1" ∧ f = "secrets.txt" then .ok "ssn 123-45-6789" else .error "missing"
  readHead := fun f =>
    if f = "secrets.txt" then .ok "ssn 123-45-6789" else .error "missing"

namespace RangeScan

/-- When every flagged path is clean at HEAD, the final-state pass
reports no sensitive data. -/
theorem scanFinalState_all_clean (R : RepoView)
    (I : String → Except String (List Finding)) :
    ∀ L, (∀ f ∈ L, headClean R I f) → (ScanFinalState R I L).fst = .ok false := by
  intro L
  induction L with
  | nil => intro _; rfl
  | cons f rest ih =>
    intro h
    rcases h f (List.mem_cons_self f rest) with ⟨d, hd, fs, hi, hlen⟩
    have hnlt : ¬ 0 < fs.length := by simp [hlen]
    simp only [ScanFinalState, hd, hi, if_neg hnlt]
    exact ih (fun x hx => h x (List.mem_cons_of_mem f hx))

/-- When every flagged path reads and inspects successfully at HEAD and
at least one is still dirty, the final-state pass reports sensitive
data. -/
theorem scanFinalState_some_dirty (R : RepoView)
    (I : String → Except String (List Finding)) :
    ∀ L, (∀ f ∈ L, headOk R I f) → (∃ f ∈ L, headDirty R I f) →
      (ScanFinalState R I L).fst = .ok true := by
  intro L
  induction L with
  | nil => rintro _ ⟨f, hf, _⟩; simp at hf
  | cons f rest ih =>
    rintro hall ⟨g, hg, hdirty⟩
    rcases hall f (List.mem_cons_self f rest) with ⟨d, hd, fs, hi⟩
    by_cases hlen : 0 < fs.length
    · simp [ScanFinalState, hd, hi, if_pos hlen]
    · simp only [ScanFinalState, hd, hi, if_neg hlen]
      apply ih (fun x hx => hall x (List.mem_cons_of_mem f hx))
      rcases List.mem_cons.mp hg with he | he
      · rcases hdirty with ⟨d2, hd2, fs2, hi2, hlen2⟩
        rw [he, hd] at hd2
        injection hd2 with hde
        subst hde
        rw [hi] at hi2
        injection hi2 with hfe
        subst hfe
        exact absurd hlen2 hlen
      · exact ⟨g, he, hdirty⟩

/-- The exit code of the part_000 run is decided by the final-state pass
over the flagged set once the scope resolution and the scanning pass
succeed. -/
theorem mainRun_exit_final (u : Bool) (rl : Except String (List String))
    (R : RepoView) (I : String → Except String (List Finding))
    (cs F : List String) (hG : GetUnpushedCommits u rl = .ok cs)
    (hsc : (scanCommits R I cs []).fst = .ok F) :
    ((ScanFinalState R I F).fst = .ok false → (mainRun u rl R I).exit = 0) ∧
    ((ScanFinalState R I F).fst = .ok true → (mainRun u rl R I).exit = 1) := by
  constructor
  · intro hf
    simp [mainRun, hG, hsc, hf]
  · intro hf
    simp [mainRun, hG, hsc, hf]

end RangeScan

/-- Claim C2, amended.  In the deferred-final-check commit-range variant
(part_000) there is no per-commit abort: after a successful scanning pass
that produces the flagged set, the decision depends only on the final
HEAD state of the flagged paths.  If every flagged path is clean at HEAD
- in particular a file flagged in an early commit and fixed by a later
one - the run exits 0; if at least one flagged path is still dirty at
HEAD, the run exits 1.  The second commit-range variant (part_002)
instead aborts per commit on any historical finding (see its
counterexample theorem). -/
theorem c2_amended_deferred_final_check (u : Bool)
    (rl : Except String (List String)) (R : RepoView)
    (I : String → Except String (List Finding)) (cs F : List String)
    (hG : RangeScan.GetUnpushedCommits u rl = .ok cs)
    (hsc : (RangeScan.scanCommits R I cs []).fst = .ok F) :
    ((∀ f ∈ F, RangeScan.headClean R I f) →
      (RangeScan.mainRun u rl R I).exit = 0) ∧
    ((∀ f ∈ F, RangeScan.headOk R I f) →
      (∃ f ∈ F, RangeScan.headDirty R I f) →
      (RangeScan.mainRun u rl R I).exit = 1) := by
  constructor
  · intro hclean
    exact (RangeScan.mainRun_exit_final u rl R I cs F hG hsc).1
      (RangeScan.scanFinalState_all_clean R I F hclean)
  · intro hall hdirty
    exact (RangeScan.mainRun_exit_final u rl R I cs F hG hsc).2
      (RangeScan.scanFinalState_some_dirty R I F hall hdirty)

/-- Witness for the amended claim C2: the transient secret of commit c1,
rewritten cleanly by commit c2 of the same range, yields exit 0; the same
secret never fixed yields exit 1. -/
theorem c2_amended_witness :
    (RangeScan.scanCommits repoFixed inspectSsn ["c1", "c2"] []).fst
      = .ok ["secrets.txt"] ∧
    (RangeScan.mainRun true (.ok ["c1", "c2"]) repoFixed inspectSsn).exit = 0 ∧
    (RangeScan.scanCommits repoNeverFixed inspectSsn ["c1"] []).fst
      = .ok ["secrets.txt"] ∧
    (RangeScan.mainRun true (.ok ["c1"]) repoNeverFixed inspectSsn).exit = 1 := by
  have h1 := c2_amended_deferred_final_check true (.ok ["c1", "c2"]) repoFixed
    inspectSsn ["c1", "c2"] ["secrets.txt"] rfl rfl
  have h2 := c2_amended_deferred_final_check true (.ok ["c1"]) repoNeverFixed
    inspectSsn ["c1"] ["secrets.txt"] rfl rfl
  refine ⟨rfl, h1.1 ?_, rfl, h2.2 ?_ ⟨"secrets.txt", by decide,
    "ssn 123-45-6789", rfl, [⟨"US_SOCIAL_SECURITY_NUMBER", 2⟩], rfl, by decide⟩⟩
  · intro f hf
    have hfe : f = "secrets.txt" := by simpa using hf
    rw [hfe]
    exact ⟨"ssn REDACTED", rfl, [], rfl, rfl⟩
  · intro f hf
    have hfe : f = "secrets.txt" := by simpa using hf
    rw [hfe]
    exact ⟨"ssn 123-45-6789", rfl, [⟨"US_SOCIAL_SECURITY_NUMBER", 2⟩], rfl⟩

/-- Claim C8, amended.  In the part_000 variant, when no upstream is
configured the dedicated no-upstream error is raised and the run exits 1
immediately with an empty trace: no file content is read and no
inspection request is made.  In the part_002 variant the same situation
surfaces only as the generic commits-retrieval failure (no dedicated
error exists there), though that run equally performs no reads and no
inspection requests. -/
theorem c8_amended_no_upstream :
    (∀ (rl : Except String (List String)) (R : RepoView)
        (I : String → Except String (List Finding)),
      RangeScan.GetUnpushedCommits false rl = .error UpstreamErr.noUpstream ∧
      RangeScan.mainRun false rl R I = ⟨1, true, []⟩) ∧
    (∀ (m : String) (R : RepoView)
        (I : String → Except String (List Finding)),
      PerCommitScan.GetCommitsToPush (.error m)
        = .error (.revListFailed ("failed to get commits to push: " ++ m)) ∧
      PerCommitScan.mainRun (.error m) R I = ⟨1, true, []⟩) := by
  exact ⟨fun rl R I => ⟨rfl, rfl⟩, fun m R I => ⟨rfl, rfl⟩⟩
